import Mathlib

/-!
Verification development for the retail-BI analytics transformation engine
(`src/02_etl/pipeline.py`, class `ETLPipeline`, method `transform`).

The embedding follows the source line by line:
* numeric CSV columns are modelled as exact rationals (`ℚ`); the IEEE special
  values produced by float division (`NaN`, `±inf`) are modelled explicitly by
  the `EFloat` carrier, since the pipeline's divisions can produce them;
* `pandas` timestamps are modelled by `Date` (calendar components plus an
  epoch-day index used for timedelta `.days`); a missing/unparseable date
  (`NaT`) is `Option.none`;
* `groupby` is modelled as: collect the distinct keys (sorted ascending, as
  `groupby(sort=True)` does), and aggregate the records matching each key;
  `groupby` drops records whose key is null (`dropna=True` default);
* `pd.qcut(xs, 5, labels, duplicates='drop')` is modelled by `qcut` below,
  including the quantile edge computation (linear interpolation), the
  deduplication of coincident edges, and the label-count check that pandas
  performs (raising `ValueError` on mismatch);
* `sort_values('Receita_Liquida', ascending=False)` uses an unstable sort
  (`kind='quicksort'`) with no secondary key, so its result is modelled
  relationally: any revenue-descending permutation of the input.
-/

namespace RetailBI

/-- Model of an IEEE-754 double as far as the pipeline needs it: an exact
finite value, the two infinities, or NaN.  All inputs of the pipeline are
finite; non-finite values only arise from the divisions below. -/
inductive EFloat where
  | nan : EFloat
  | posInf : EFloat
  | negInf : EFloat
  | fin : ℚ → EFloat
deriving DecidableEq, Repr

/-- IEEE division for the operand shapes reachable in the pipeline (both
operands finite, or a NaN operand propagating).  Finite/finite follows IEEE:
`a/0` is NaN when `a = 0`, `+inf` when `a > 0`, `-inf` when `a < 0`. -/
def ediv : EFloat → EFloat → EFloat
  | .fin a, .fin b =>
      if b ≠ 0 then .fin (a / b)
      else if a = 0 then .nan
      else if 0 < a then .posInf
      else .negInf
  | .nan, _ => .nan
  | _, .nan => .nan
  | .posInf, .posInf => .nan
  | .posInf, .negInf => .nan
  | .negInf, .posInf => .nan
  | .negInf, .negInf => .nan
  | .posInf, .fin b => if 0 < b then .posInf else if b < 0 then .negInf else .nan
  | .negInf, .fin b => if 0 < b then .negInf else if b < 0 then .posInf else .nan
  | .fin _, .posInf => .fin 0
  | .fin _, .negInf => .fin 0

/-- IEEE multiplication for the operand shapes reachable in the pipeline. -/
def emul : EFloat → EFloat → EFloat
  | .fin a, .fin b => .fin (a * b)
  | .nan, _ => .nan
  | _, .nan => .nan
  | .posInf, .posInf => .posInf
  | .posInf, .negInf => .negInf
  | .negInf, .posInf => .negInf
  | .negInf, .negInf => .posInf
  | .posInf, .fin b => if 0 < b then .posInf else if b < 0 then .negInf else .nan
  | .negInf, .fin b => if 0 < b then .negInf else if b < 0 then .posInf else .nan
  | .fin a, .posInf => if 0 < a then .posInf else if a < 0 then .negInf else .nan
  | .fin a, .negInf => if 0 < a then .negInf else if a < 0 then .posInf else .nan

/-- IEEE `≤` comparison: any comparison with NaN is false. -/
def ele : EFloat → EFloat → Bool
  | .nan, _ => false
  | _, .nan => false
  | .fin a, .fin b => decide (a ≤ b)
  | .negInf, _ => true
  | _, .posInf => true
  | .posInf, .fin _ => false
  | .posInf, .negInf => false
  | .fin _, .negInf => false

/-- Round-half-to-even on an exact rational, as `numpy`/`pandas` rounding
behaves on exactly representable values. -/
def roundHalfEven (x : ℚ) : ℤ :=
  let n := ⌊x⌋
  let frac := x - n
  if frac < 1 / 2 then n
  else if 1 / 2 < frac then n + 1
  else if n % 2 = 0 then n else n + 1

/-- `.round(2)` on an exact rational value. -/
def round2 (q : ℚ) : ℚ :=
  (roundHalfEven (q * 100) : ℚ) / 100

/-- `.round(2)` lifted to `EFloat`: rounding fixes NaN and the infinities. -/
def eround2 : EFloat → EFloat
  | .fin q => .fin (round2 q)
  | x => x

/-- A `pandas` timestamp as the pipeline reads it: the calendar components
exposed by the `.dt` accessor plus an epoch-day index, so that subtracting two
timestamps and taking `.days` is subtraction of `epochDay`. -/
structure Date where
  year : ℤ
  month : ℤ
  epochDay : ℤ
deriving DecidableEq, Repr

/-- One row of `fato_vendas`, the columns `transform` reads.  `data_venda`
is `none` when the CSV cell was missing or unparseable (`NaT`). -/
structure SaleRecord where
  id_venda : ℤ
  id_cliente : ℤ
  id_produto : ℤ
  data_venda : Option Date
  quantidade : ℚ
  receita_liquida : ℚ
  lucro_bruto : ℚ
deriving DecidableEq, Repr

/-- A sale record after the normalisation block of `transform` (lines 50-57):
derived calendar columns and the margin percentage.  A missing date yields
missing (NaN) calendar fields, as `.dt.year` on `NaT` does. -/
structure NormRecord where
  base : SaleRecord
  ano : Option ℤ
  mes : Option ℤ
  dia_semana : Option ℤ
  margem_pct : EFloat
deriving DecidableEq, Repr

/-- Lines 50-57 of `pipeline.py`:
`Ano = Data_Venda.dt.year`, `Mes = Data_Venda.dt.month`,
`Dia_Semana = Data_Venda.dt.dayofweek` (modelled as `epochDay % 7`; the
0=Monday alignment depends on the epoch choice and is not used by any claim),
`Margem_Pct = ((Lucro_Bruto / Receita_Liquida) * 100).round(2)`. -/
def normalizeRecord (r : SaleRecord) : NormRecord where
  base := r
  ano := r.data_venda.map (·.year)
  mes := r.data_venda.map (·.month)
  dia_semana := r.data_venda.map (·.epochDay % 7)
  margem_pct := eround2 (emul (ediv (.fin r.lucro_bruto) (.fin r.receita_liquida)) (.fin 100))

/-- The normaliser applied column-wise to the whole fact table. -/
def normalize (recs : List SaleRecord) : List NormRecord :=
  recs.map normalizeRecord

/-- The distinct non-null group keys of a record list, sorted ascending:
this is how `groupby(..., sort=True, dropna=True)` (the pandas defaults used
throughout `transform`) enumerates its groups. -/
def groupKeys {R K : Type} [DecidableEq K] (le : K → K → Prop) [DecidableRel le]
    (key : R → Option K) (recs : List R) : List K :=
  List.insertionSort le (recs.filterMap key).dedup

/-- The records of one group: those whose key is the given (non-null) key. -/
def groupOf {R K : Type} [DecidableEq K] (key : R → Option K) (k : K)
    (recs : List R) : List R :=
  recs.filter (fun r => key r = some k)

/-- Ascending lexicographic order on `(Ano, Mes)` keys. -/
def leYM (a b : ℤ × ℤ) : Prop :=
  a.1 < b.1 ∨ (a.1 = b.1 ∧ a.2 ≤ b.2)

instance : DecidableRel leYM := fun _ _ => by unfold leYM; infer_instance

/-- The `(Ano, Mes)` group key of a normalised record; null when the sale
date was missing (`groupby` then drops the record). -/
def mesKey (r : NormRecord) : Option (ℤ × ℤ) :=
  match r.ano, r.mes with
  | some a, some m => some (a, m)
  | _, _ => none

/-- One row of the monthly rollup `vendas_mensais` (lines 60-71):
sums of revenue, profit and quantity, the sale count, and the rounded
average ticket. -/
structure MonthlyAggregate where
  ano : ℤ
  mes : ℤ
  receita_liquida : ℚ
  lucro_bruto : ℚ
  quantidade : ℚ
  qtd_vendas : ℕ
  ticket_medio : ℚ
deriving DecidableEq, Repr

/-- Lines 60-71 of `pipeline.py`: group the fact table by `(Ano, Mes)`,
aggregate `Receita_Liquida`/`Lucro_Bruto`/`Quantidade` with `sum`,
count `ID_Venda`, and derive `Ticket_Medio = (Receita/Qtd).round(2)`. -/
def vendas_mensais (recs : List NormRecord) : List MonthlyAggregate :=
  (groupKeys leYM mesKey recs).map (fun k =>
    let g := groupOf mesKey k recs
    let receita := (g.map (·.base.receita_liquida)).sum
    { ano := k.1
      mes := k.2
      receita_liquida := receita
      lucro_bruto := (g.map (·.base.lucro_bruto)).sum
      quantidade := (g.map (·.base.quantidade)).sum
      qtd_vendas := g.length
      ticket_medio := round2 (receita / g.length) })

/-- One row of the per-customer RFM base table (lines 73-81), before the
quantile scores: `Recencia = (hoje - Data_Venda.max()).days` (null when the
customer has no parseable date), `Frequencia = count(ID_Venda)`,
`Monetario = sum(Receita_Liquida)`. -/
structure RfmRow where
  id_cliente : ℤ
  recencia : Option ℤ
  frequencia : ℚ
  monetario : ℚ
deriving DecidableEq, Repr

/-- Lines 73-81 of `pipeline.py`.  `hoje` is the epoch-day index of
`pd.Timestamp.now()` read at invocation time; the customer keys are the
distinct `ID_Cliente` values, ascending. -/
def rfmBase (recs : List SaleRecord) (hoje : ℤ) : List RfmRow :=
  (groupKeys (· ≤ ·) (fun r => some r.id_cliente) recs).map (fun k =>
    let g := groupOf (fun r => some r.id_cliente) k recs
    { id_cliente := k
      recencia := ((g.filterMap (·.data_venda)).map (·.epochDay)).max?.map (hoje - ·)
      frequencia := (g.length : ℚ)
      monetario := (g.map (·.receita_liquida)).sum })

/-- The empirical quantile of a value list, linear interpolation between
order statistics — the method `np.quantile`/`pandas` use for `qcut` bin
edges: for `n` sorted values and `0 ≤ q ≤ 1`, interpolate at the fractional
position `q * (n - 1)`. -/
def quantile (xs : List ℚ) (q : ℚ) : ℚ :=
  let s := List.insertionSort (· ≤ ·) xs
  if s.length = 0 then 0
  else
    let h : ℚ := q * ((s.length : ℚ) - 1)
    let lo : ℕ := (⌊h⌋).toNat
    let hi : ℕ := (⌈h⌉).toNat
    let a := s.getD lo 0
    let b := s.getD hi 0
    a + (h - (lo : ℚ)) * (b - a)

/-- The six bin edges `pd.qcut(xs, 5)` computes: the empirical quantiles at
`0, 0.2, 0.4, 0.6, 0.8, 1`. -/
def qcutEdges (xs : List ℚ) : List ℚ :=
  [0, 1/5, 2/5, 3/5, 4/5, 1].map (quantile xs)

/-- `searchsorted(bins, x, side='left')` on a sorted edge list: the number
of edges strictly below `x`. -/
def searchsortedLeft (bins : List ℚ) (x : ℚ) : ℕ :=
  (bins.filter (fun b => b < x)).length

/-- Bin-label assignment of `pd.cut`/`pd.qcut` for one value: index the
labels by `searchsorted - 1`, with the `include_lowest` adjustment placing
`x = bins[0]` into the first bin; out-of-range positions are NaN (`none`). -/
def assignBin (bins : List ℚ) (labels : List ℤ) (x : ℚ) : Option ℤ :=
  let i := if bins.head? = some x then 1 else searchsortedLeft bins x
  if i = 0 then none else labels.get? (i - 1)

/-- `pd.qcut(xs, 5, labels, duplicates='drop')` (lines 84-86): compute the
six quantile edges, drop duplicate edges, then — exactly as pandas
`_bins_to_cuts` does — check the explicitly supplied label list against the
deduplicated edges and raise `ValueError` when the counts no longer match;
otherwise assign each value its bin label. -/
def qcut (xs : List ℚ) (labels : List ℤ) : Except String (List (Option ℤ)) :=
  let bins := (qcutEdges xs).dedup
  if labels.length ≠ bins.length - 1 then
    .error "Bin labels must be one fewer than the number of bin edges"
  else
    .ok (xs.map (assignBin bins labels))

/-- Line 85 of `pipeline.py`: the F-score column,
`pd.qcut(rfm['Frequencia'], 5, labels=[1,2,3,4,5], duplicates='drop')`. -/
def fScores (rows : List RfmRow) : Except String (List (Option ℤ)) :=
  qcut (rows.map (·.frequencia)) [1, 2, 3, 4, 5]

/-- Lines 95-106 of `pipeline.py`, `segment_customer(score)`: the RFM score
string (R, F, M digit characters concatenated) is inspected at positions 0
(R) and 1 (F) through a nested conditional chain.  The labels are the
code's Portuguese strings; the spec renders the same five segments in
English as Champions / Loyal / Potential / At Risk / Lost. -/
def segment_customer (score : List Char) : String :=
  let c0 := score.getD 0 ' '
  let c1 := score.getD 1 ' '
  if c0 ∈ ['4', '5'] ∧ c1 ∈ ['4', '5'] then "Champions"
  else if c0 ∈ ['3', '4', '5'] ∧ c1 ∈ ['3', '4'] then "Leais"
  else if c0 ∈ ['4', '5'] ∧ c1 ∈ ['1', '2'] then "Potencial"
  else if c0 ∈ ['2', '3'] ∧ c1 ∈ ['2', '3', '4'] then "Em Risco"
  else "Perdidos"

/-- First-match-wins evaluation of an ordered `(predicate, label)` rule list
over the `(R, F)` key, with a default label when no rule fires. -/
def firstMatch (rules : List ((Char × Char → Bool) × String)) (dflt : String)
    (rf : Char × Char) : String :=
  match rules with
  | [] => dflt
  | (p, lab) :: rest => if p rf then lab else firstMatch rest dflt rf

/-- Modelled from the spec: the segment rule chain of §4.3 step 3 as an
explicit ordered list of `(predicate, label)` pairs over the `(R, F)` key
(first match wins; fall-through label "Perdidos"/Lost). -/
def specSegmentRules : List ((Char × Char → Bool) × String) :=
  [ (fun rf => decide (rf.1 ∈ ['4', '5']) && decide (rf.2 ∈ ['4', '5']), "Champions"),
    (fun rf => decide (rf.1 ∈ ['3', '4', '5']) && decide (rf.2 ∈ ['3', '4']), "Leais"),
    (fun rf => decide (rf.1 ∈ ['4', '5']) && decide (rf.2 ∈ ['1', '2']), "Potencial"),
    (fun rf => decide (rf.1 ∈ ['2', '3']) && decide (rf.2 ∈ ['2', '3', '4']), "Em Risco") ]

/-- One row of the per-product aggregation `vendas_produto` before ranking
(lines 110-114): summed revenue and quantity per product id. -/
structure ProdVenda where
  id_produto : ℤ
  receita_liquida : ℚ
  quantidade : ℚ
deriving DecidableEq, Repr

/-- Lines 110-114 of `pipeline.py`: group the fact table by `ID_Produto`
and sum `Receita_Liquida` and `Quantidade`. -/
def vendas_produto (recs : List SaleRecord) : List ProdVenda :=
  (groupKeys (· ≤ ·) (fun r => some r.id_produto) recs).map (fun k =>
    let g := groupOf (fun r => some r.id_produto) k recs
    { id_produto := k
      receita_liquida := (g.map (·.receita_liquida)).sum
      quantidade := (g.map (·.quantidade)).sum })

/-- Adjacent revenues are non-increasing. -/
def RevDesc (out : List ProdVenda) : Prop :=
  List.Chain' (fun a b => b.receita_liquida ≤ a.receita_liquida) out

/-- Line 116 of `pipeline.py`,
`sort_values('Receita_Liquida', ascending=False)`: the default
`kind='quicksort'` is not stable and no secondary key is given, so the
result is specified only up to the order of equal revenues — any
revenue-descending permutation of the input. -/
def SortValuesDesc (l out : List ProdVenda) : Prop :=
  out.Perm l ∧ RevDesc out

/-- Lines 124-129 of `pipeline.py`, `classificar_abc(pct)`: the class
letter from the (already rounded) cumulative percentage; a NaN percentage
fails both `<=` tests and falls through to `'C'`. -/
def classificar_abc (pct : EFloat) : String :=
  if ele pct (.fin 80) then "A"
  else if ele pct (.fin 95) then "B"
  else "C"

/-- One row of the final ABC table `abc_produtos`: the product row plus
running cumulative revenue, rounded cumulative percentage of total revenue,
and the class letter. -/
structure AbcRow where
  id_produto : ℤ
  receita_liquida : ℚ
  quantidade : ℚ
  receita_acumulada : ℚ
  pct_acumulado : EFloat
  classe : String
deriving DecidableEq, Repr

/-- The cumulative percentage of line 119:
`(Receita_Acumulada / total_receita * 100).round(2)` in float arithmetic. -/
def pctAcumulado (total cum : ℚ) : EFloat :=
  eround2 (emul (ediv (.fin cum) (.fin total)) (.fin 100))

/-- Lines 117-129 applied to the ranked rows, carrying the running
cumulative revenue `acc` (the `cumsum`), with `total` the revenue total:
each row gets its cumulative revenue, rounded cumulative percentage, and
ABC class. -/
def abcRows (total : ℚ) : ℚ → List ProdVenda → List AbcRow
  | _, [] => []
  | acc, r :: rest =>
      let c := acc + r.receita_liquida
      let pct := pctAcumulado total c
      { id_produto := r.id_produto
        receita_liquida := r.receita_liquida
        quantidade := r.quantidade
        receita_acumulada := c
        pct_acumulado := pct
        classe := classificar_abc pct } :: abcRows total c rest

/-- Lines 117-129 of `pipeline.py` on an already ranked product list:
`Receita_Acumulada = cumsum`, `total_receita = sum`,
`Pct_Acumulado = (acum/total*100).round(2)`, `Classe_ABC` via
`classificar_abc`. -/
def abcFromSorted (rows : List ProdVenda) : List AbcRow :=
  abcRows ((rows.map (·.receita_liquida)).sum) 0 rows

/-- The ABC classifier end to end (lines 109-129): aggregate per product,
rank by revenue descending (tie order unspecified, see `SortValuesDesc`),
then accumulate, percentage and classify. -/
def AbcOutput (recs : List SaleRecord) (out : List AbcRow) : Prop :=
  ∃ sorted, SortValuesDesc (vendas_produto recs) sorted ∧ out = abcFromSorted sorted

/-! ### Helper lemmas about the groupby embedding -/

theorem nodup_groupKeys {R K : Type} [DecidableEq K] (le : K → K → Prop) [DecidableRel le]
    (key : R → Option K) (recs : List R) : (groupKeys le key recs).Nodup :=
  ((List.perm_insertionSort le _).nodup_iff).mpr (List.nodup_dedup _)

theorem mem_groupKeys {R K : Type} [DecidableEq K] {le : K → K → Prop} [DecidableRel le]
    {key : R → Option K} {recs : List R} {r : R} {k : K}
    (hr : r ∈ recs) (hk : key r = some k) : k ∈ groupKeys le key recs := by
  unfold groupKeys
  rw [(List.perm_insertionSort le _).mem_iff, List.mem_dedup, List.mem_filterMap]
  exact ⟨r, hr, hk⟩

theorem sum_map_ite_eq {K : Type} [DecidableEq K] (a : ℚ) :
    ∀ (ks : List K) (k₀ : K), ks.Nodup → k₀ ∈ ks →
      (ks.map (fun k => if k₀ = k then a else 0)).sum = a := by
  intro ks
  induction ks with
  | nil => intro k₀ _ h; cases h
  | cons k ks ih =>
      intro k₀ hnd hmem
      rcases List.mem_cons.mp hmem with h | h
      · subst h
        have hnot : k₀ ∉ ks := (List.nodup_cons.mp hnd).1
        have hz : (ks.map (fun k => if k₀ = k then a else 0)).sum = 0 := by
          rw [List.sum_eq_zero]
          intro x hx
          rcases List.mem_map.mp hx with ⟨k', hk', rfl⟩
          simp only [ite_eq_right_iff]
          intro he; exact absurd (he ▸ hk') hnot
        simp [hz]
      · have hne : k₀ ≠ k := by
          rintro rfl; exact (List.nodup_cons.mp hnd).1 h
        simp [List.map_cons, hne, ih k₀ (List.nodup_cons.mp hnd).2 h]

/-- Summing a value over every group of a groupby recovers the sum over all
records, provided every record's key occurs among the (distinct) group
keys. -/
theorem sum_groups {R K : Type} [DecidableEq K] (key : R → Option K) (val : R → ℚ) :
    ∀ (recs : List R) (ks : List K), ks.Nodup →
      (∀ r ∈ recs, ∃ k ∈ ks, key r = some k) →
      (ks.map (fun k => ((groupOf key k recs).map val).sum)).sum = (recs.map val).sum := by
  intro recs
  induction recs with
  | nil => intro ks _ _; simp [groupOf]
  | cons r rs ih =>
      intro ks hnd hcov
      obtain ⟨k₀, hk₀, hkey⟩ := hcov r (List.mem_cons_self r rs)
      have hstep : ∀ k : K, ((groupOf key k (r :: rs)).map val).sum =
          (if k₀ = k then val r else 0) + ((groupOf key k rs).map val).sum := by
        intro k
        by_cases h : key r = some k
        · have : k₀ = k := by
            rw [hkey] at h; exact Option.some_injective _ h
          simp [groupOf, List.filter_cons, h, this]
        · have : k₀ ≠ k := by
            rintro rfl; exact h hkey
          simp [groupOf, List.filter_cons, h, this]
      calc (ks.map (fun k => ((groupOf key k (r :: rs)).map val).sum)).sum
          = (ks.map (fun k => (if k₀ = k then val r else 0) +
              ((groupOf key k rs).map val).sum)).sum := by
            exact congrArg List.sum (List.map_congr_left (fun k _ => hstep k))
        _ = (ks.map (fun k => if k₀ = k then val r else 0)).sum +
              (ks.map (fun k => ((groupOf key k rs).map val).sum)).sum := by
            rw [List.sum_map_add]
        _ = val r + (rs.map val).sum := by
            rw [sum_map_ite_eq (val r) ks k₀ hnd hk₀,
              ih ks hnd (fun x hx => hcov x (List.mem_cons_of_mem r hx))]
        _ = ((r :: rs).map val).sum := by simp

/-- The per-product aggregation conserves total revenue. -/
theorem total_vendas_produto (recs : List SaleRecord) :
    ((vendas_produto recs).map (·.receita_liquida)).sum
      = (recs.map (·.receita_liquida)).sum := by
  unfold vendas_produto
  rw [List.map_map]
  have h := sum_groups (fun r : SaleRecord => some r.id_produto) (·.receita_liquida) recs
      (groupKeys (· ≤ ·) (fun r => some r.id_produto) recs)
      (nodup_groupKeys _ _ _)
      (fun r hr => ⟨r.id_produto, mem_groupKeys hr rfl, rfl⟩)
  simpa [Function.comp] using h

/-- The monthly rollup conserves total revenue whenever every record has a
(parseable) sale date. -/
theorem total_vendas_mensais (recs : List SaleRecord)
    (hd : ∀ r ∈ recs, r.data_venda.isSome) :
    ((vendas_mensais (normalize recs)).map (·.receita_liquida)).sum
      = (recs.map (·.receita_liquida)).sum := by
  unfold vendas_mensais
  rw [List.map_map]
  have hcov : ∀ nr ∈ normalize recs, ∃ k ∈ groupKeys leYM mesKey (normalize recs),
      mesKey nr = some k := by
    intro nr hnr
    rcases List.mem_map.mp hnr with ⟨r, hr, rfl⟩
    rcases Option.isSome_iff_exists.mp (hd r hr) with ⟨d, hdate⟩
    have hk : mesKey (normalizeRecord r) = some (d.year, d.month) := by
      simp [mesKey, normalizeRecord, hdate]
    exact ⟨(d.year, d.month), mem_groupKeys hnr hk, hk⟩
  have h := sum_groups mesKey (fun nr : NormRecord => nr.base.receita_liquida)
      (normalize recs) (groupKeys leYM mesKey (normalize recs))
      (nodup_groupKeys _ _ _) hcov
  have hbase : ((normalize recs).map (fun nr : NormRecord => nr.base.receita_liquida)).sum
      = (recs.map (·.receita_liquida)).sum := by
    unfold normalize
    rw [List.map_map]
    rfl
  rw [← hbase, ← h]
  rfl

/-! ### Helper lemmas about the ABC stage -/

/-- `abcRows` preserves the revenue column. -/
theorem abcRows_map_receita (total : ℚ) :
    ∀ (acc : ℚ) (rows : List ProdVenda),
      (abcRows total acc rows).map (·.receita_liquida) = rows.map (·.receita_liquida) := by
  intro acc rows
  induction rows generalizing acc with
  | nil => rfl
  | cons r rest ih => simp [abcRows, ih]

/-- `abcRows` preserves the underlying product rows. -/
theorem abcRows_map_prod (total : ℚ) :
    ∀ (acc : ℚ) (rows : List ProdVenda),
      (abcRows total acc rows).map
        (fun a => ProdVenda.mk a.id_produto a.receita_liquida a.quantidade) = rows := by
  intro acc rows
  induction rows generalizing acc with
  | nil => rfl
  | cons r rest ih => simp [abcRows, ih]

/-- The last `abcRows` row carries the cumulative percentage of the running
total plus the whole remaining revenue. -/
theorem abcRows_getLast_pct (total : ℚ) :
    ∀ (rows : List ProdVenda) (acc : ℚ), rows ≠ [] →
      ((abcRows total acc rows).getLast?).map (·.pct_acumulado)
        = some (pctAcumulado total (acc + (rows.map (·.receita_liquida)).sum)) := by
  intro rows
  induction rows with
  | nil => intro acc h; exact absurd rfl h
  | cons r rest ih =>
      intro acc _
      cases rest with
      | nil => simp [abcRows]
      | cons r' rest' =>
          have hne : (r' :: rest') ≠ ([] : List ProdVenda) := by simp
          calc ((abcRows total acc (r :: r' :: rest')).getLast?).map (·.pct_acumulado)
              = ((abcRows total (acc + r.receita_liquida) (r' :: rest')).getLast?).map
                  (·.pct_acumulado) := by
                rw [abcRows]
                rw [show abcRows total (acc + r.receita_liquida) (r' :: rest')
                    = _ :: abcRows total _ rest' from rfl]
                rw [List.getLast?_cons_cons]
            _ = some (pctAcumulado total
                  ((acc + r.receita_liquida) + ((r' :: rest').map (·.receita_liquida)).sum)) :=
                ih (acc + r.receita_liquida) hne
            _ = some (pctAcumulado total
                  (acc + ((r :: r' :: rest').map (·.receita_liquida)).sum)) := by
                congr 2
                simp only [List.map_cons, List.sum_cons]
                ring

/-! ### Helper lemmas about quantiles and rounding -/

theorem insertionSort_replicate (m : ℕ) (v : ℚ) :
    List.insertionSort (· ≤ ·) (List.replicate m v) = List.replicate m v := by
  have hperm := List.perm_insertionSort (α := ℚ) (· ≤ ·) (List.replicate m v)
  rw [List.eq_replicate_iff]
  exact ⟨by rw [hperm.length_eq, List.length_replicate],
    fun b hb => List.eq_of_mem_replicate (hperm.mem_iff.mp hb)⟩

theorem getD_replicate_of_lt {m i : ℕ} (v : ℚ) (h : i < m) :
    (List.replicate m v).getD i 0 = v := by
  rw [List.getD_eq_getElem?_getD, List.getElem?_replicate]
  simp [h]

/-- Every empirical quantile of a constant sample is that constant. -/
theorem quantile_replicate (m : ℕ) (hm : m ≠ 0) (v q : ℚ)
    (_h0 : 0 ≤ q) (h1 : q ≤ 1) : quantile (List.replicate m v) q = v := by
  have hm1 : (1 : ℕ) ≤ m := Nat.one_le_iff_ne_zero.mpr hm
  have hmq : (0 : ℚ) ≤ (m : ℚ) - 1 := by
    have : (1 : ℚ) ≤ (m : ℚ) := by exact_mod_cast hm1
    linarith
  have hq : q * ((m : ℚ) - 1) ≤ (m : ℚ) - 1 := mul_le_of_le_one_left hmq h1
  have hcast : ((m : ℚ) - 1) = (((m : ℤ) - 1 : ℤ) : ℚ) := by push_cast; ring
  have hlo : (⌊q * ((m : ℚ) - 1)⌋).toNat < m := by
    have h1' : ⌊q * ((m : ℚ) - 1)⌋ ≤ (m : ℤ) - 1 := by
      calc ⌊q * ((m : ℚ) - 1)⌋ ≤ ⌊(m : ℚ) - 1⌋ := Int.floor_le_floor hq
        _ = (m : ℤ) - 1 := by rw [hcast, Int.floor_intCast]
    omega
  have hhi : (⌈q * ((m : ℚ) - 1)⌉).toNat < m := by
    have h1' : ⌈q * ((m : ℚ) - 1)⌉ ≤ (m : ℤ) - 1 := by
      rw [Int.ceil_le, ← hcast]; exact hq
    omega
  unfold quantile
  simp only [insertionSort_replicate, List.length_replicate, hm, if_false]
  rw [getD_replicate_of_lt v hlo, getD_replicate_of_lt v hhi]
  ring

/-- On a constant sample the six requested quantile edges all coincide. -/
theorem qcutEdges_replicate (n : ℕ) (v : ℚ) :
    qcutEdges (List.replicate (n + 1) v) = [v, v, v, v, v, v] := by
  have h : ∀ q : ℚ, 0 ≤ q → q ≤ 1 → quantile (List.replicate (n + 1) v) q = v :=
    fun q hq0 hq1 => quantile_replicate (n + 1) (Nat.succ_ne_zero n) v q hq0 hq1
  unfold qcutEdges
  simp only [List.map_cons, List.map_nil]
  rw [h 0 (by norm_num) (by norm_num), h (1/5) (by norm_num) (by norm_num),
    h (2/5) (by norm_num) (by norm_num), h (3/5) (by norm_num) (by norm_num),
    h (4/5) (by norm_num) (by norm_num), h 1 (by norm_num) (by norm_num)]

/-- On a constant (non-empty) sample, `pd.qcut(..., 5, labels=[...],
duplicates='drop')` collapses the six edges to one, leaving zero bins, and
the five supplied labels no longer match: pandas raises `ValueError`. -/
theorem qcut_replicate_error (n : ℕ) (v : ℚ) :
    qcut (List.replicate (n + 1) v) [1, 2, 3, 4, 5]
      = .error "Bin labels must be one fewer than the number of bin edges" := by
  unfold qcut
  rw [qcutEdges_replicate]
  have hd : ([v, v, v, v, v, v] : List ℚ).dedup = [v] := by simp
  rw [hd]
  norm_num

theorem round2_hundred : round2 100 = 100 := by
  have h : roundHalfEven (100 * 100) = 10000 := by
    unfold roundHalfEven
    norm_num
  rw [round2, h]
  norm_num

/-- Round-half-even sends everything in `(n, n + 1/2]`, `n` even, to `n`. -/
theorem roundHalfEven_of_Ioc (n : ℤ) (x : ℚ) (heven : n % 2 = 0)
    (h1 : (n : ℚ) < x) (h2 : x ≤ (n : ℚ) + 1 / 2) : roundHalfEven x = n := by
  have hfloor : ⌊x⌋ = n := by
    rw [Int.floor_eq_iff]
    constructor
    · exact le_of_lt h1
    · linarith
  unfold roundHalfEven
  rw [hfloor]
  by_cases hc : x - (n : ℚ) < 1 / 2
  · rw [if_pos hc]
  · have heq : x - (n : ℚ) = 1 / 2 := by linarith
    have hc2 : ¬(1 / 2 < x - (n : ℚ)) := by rw [heq]; exact lt_irrefl _
    rw [if_neg hc, if_neg hc2, if_pos heven]

/-- The cumulative percentage of the full total is exactly `fin 100`. -/
theorem pctAcumulado_self (total : ℚ) (h : total ≠ 0) :
    pctAcumulado total total = .fin 100 := by
  unfold pctAcumulado
  simp [ediv, emul, eround2, h, div_self h, round2_hundred]

/-! ### Helper lemmas about null-key dropping and the as-of instant -/

theorem filterMap_mesKey_filter (recs : List NormRecord) :
    (recs.filter (fun r => (mesKey r).isSome)).filterMap mesKey
      = recs.filterMap mesKey := by
  induction recs with
  | nil => rfl
  | cons r rs ih => cases hk : mesKey r <;>
      simp [List.filter_cons, List.filterMap_cons, hk, ih]

theorem groupOf_mesKey_filter (recs : List NormRecord) (k : ℤ × ℤ) :
    groupOf mesKey k (recs.filter (fun r => (mesKey r).isSome))
      = groupOf mesKey k recs := by
  unfold groupOf
  rw [List.filter_filter]
  apply List.filter_congr
  intro a _
  cases hk : mesKey a <;> simp [hk]

theorem option_shift (o : Option ℤ) (h d : ℤ) :
    o.map (fun m => h + d - m) = (o.map (fun m => h - m)).map (d + ·) := by
  cases o with
  | none => rfl
  | some m => simp only [Option.map_some']; congr 1; omega

/-! ## The claims -/

/-- **C1** (code bug).  The spec requires: on a dataset where every customer
has the same purchase frequency, RFM scoring must not raise; the five
requested bins collapse and every customer receives the single collapsed
bin's F score.  The code instead raises: `pd.qcut(freq, 5,
labels=[1,2,3,4,5], duplicates='drop')` (line 85) drops the coincident
quantile edges down to one, leaving zero bins, and pandas then raises
`ValueError("Bin labels must be one fewer than the number of bin edges")`
because the explicitly supplied 5-label list no longer matches; the blanket
`except` in `transform` catches it and the pipeline produces no RFM output
at all. -/
theorem c1_identical_frequency_qcut_raises (rows : List RfmRow) (c : ℚ)
    (hne : rows ≠ []) (hall : ∀ r ∈ rows, r.frequencia = c) :
    fScores rows
      = .error "Bin labels must be one fewer than the number of bin edges" := by
  unfold fScores
  have hrep : rows.map (·.frequencia) = List.replicate rows.length c :=
    List.eq_replicate_iff.mpr ⟨List.length_map _ _, fun b hb => by
      rcases List.mem_map.mp hb with ⟨r, hr, rfl⟩; exact hall r hr⟩
  rw [hrep]
  obtain ⟨n, hn⟩ : ∃ n, rows.length = n + 1 := by
    cases rows with
    | nil => exact absurd rfl hne
    | cons r rs => exact ⟨rs.length, rfl⟩
  rw [hn]
  exact qcut_replicate_error n c

/-- C1 witness: three customers with one purchase each — the exact scenario
of the spec's degenerate-scoring test — make the F-score `qcut` raise. -/
theorem c1_witness :
    fScores [⟨1, some 10, 1, 50⟩, ⟨2, some 5, 1, 30⟩, ⟨3, some 7, 1, 20⟩]
      = .error "Bin labels must be one fewer than the number of bin edges" :=
  c1_identical_frequency_qcut_raises _ 1 (by simp) (by decide)

/-- **C2 counterexample**.  The claim requires equal-revenue ties to appear
in ascending product-id order.  `sort_values('Receita_Liquida',
ascending=False)` (line 116) has no secondary key and its `quicksort` is
unstable, so the id-descending arrangement below is an admissible result of
the sort — it is a revenue-descending permutation of the input — yet it
violates the claimed tie-break. -/
theorem c2_counterexample :
    SortValuesDesc [⟨1, 10, 1⟩, ⟨2, 10, 1⟩] [⟨2, 10, 1⟩, ⟨1, 10, 1⟩] ∧
    ¬ List.Chain' (fun a b : ProdVenda => b.receita_liquida ≤ a.receita_liquida ∧
        (a.receita_liquida = b.receita_liquida → a.id_produto < b.id_produto))
      [⟨2, 10, 1⟩, ⟨1, 10, 1⟩] := by
  refine ⟨⟨by decide, ?_⟩, ?_⟩
  · rw [RevDesc, List.chain'_pair]
  · rw [List.chain'_pair]
    rintro ⟨-, h2⟩
    exact absurd (h2 rfl) (by decide)

/-- **C2 amended**.  What the code does guarantee: the ABC output is sorted
by revenue descending (adjacent revenues non-increasing) and carries
exactly the per-product aggregation rows; the order of equal revenues is
left unspecified by the code (no secondary sort key). -/
theorem c2_sorted_desc (recs : List SaleRecord) (out : List AbcRow)
    (h : AbcOutput recs out) :
    List.Chain' (fun a b : AbcRow => b.receita_liquida ≤ a.receita_liquida) out ∧
    (out.map (fun a => ProdVenda.mk a.id_produto a.receita_liquida a.quantidade)).Perm
      (vendas_produto recs) := by
  obtain ⟨sorted, ⟨hperm, hdesc⟩, rfl⟩ := h
  constructor
  · have hchain : List.Chain' (fun x y : ℚ => y ≤ x)
        (sorted.map (·.receita_liquida)) := by
      rw [List.chain'_map]
      exact hdesc
    have h2 : (abcFromSorted sorted).map (·.receita_liquida)
        = sorted.map (·.receita_liquida) := abcRows_map_receita _ 0 sorted
    have h3 : List.Chain' (fun x y : ℚ => y ≤ x)
        ((abcFromSorted sorted).map (·.receita_liquida)) := h2 ▸ hchain
    exact (List.chain'_map _).mp h3
  · rw [abcFromSorted, abcRows_map_prod]
    exact hperm

/-- C2 witness: a one-product dataset. -/
theorem c2_witness :
    List.Chain' (fun a b : AbcRow => b.receita_liquida ≤ a.receita_liquida)
        (abcFromSorted [⟨1, 50, 2⟩]) ∧
    ((abcFromSorted [⟨1, 50, 2⟩]).map
        (fun a => ProdVenda.mk a.id_produto a.receita_liquida a.quantidade)).Perm
      (vendas_produto [⟨7, 3, 1, some ⟨2024, 1, 10⟩, 2, 50, 20⟩]) := by
  have hvp : vendas_produto [⟨7, 3, 1, some ⟨2024, 1, 10⟩, 2, 50, 20⟩]
      = [⟨1, 50, 2⟩] := by
    norm_num [vendas_produto, groupKeys, groupOf, List.insertionSort, List.orderedInsert]
  exact c2_sorted_desc _ _
    ⟨[⟨1, 50, 2⟩], ⟨by rw [hvp], by simp [RevDesc]⟩, rfl⟩

/-- **C3 counterexample**.  The claim says the ABC Classifier raises
`EmptyDatasetError` on zero transactions.  No such error class exists
anywhere in the repository, and the classifier's code (lines 109-129)
contains no raise: on an empty fact table it simply produces the empty
classification table — exhibited here as an admissible (indeed the only)
output. -/
theorem c3_counterexample : AbcOutput [] [] :=
  ⟨[], ⟨by decide, by simp [RevDesc]⟩, rfl⟩

/-- **C3 amended**.  On a dataset with zero transactions the ABC Classifier
raises no error: it is total and returns the empty table — the zero-total
division is never evaluated on any row because there are no rows. -/
theorem c3_empty_yields_empty (out : List AbcRow) (h : AbcOutput [] out) :
    out = [] := by
  obtain ⟨sorted, ⟨hperm, -⟩, rfl⟩ := h
  have h0 : vendas_produto ([] : List SaleRecord) = [] := rfl
  rw [h0] at hperm
  rw [hperm.eq_nil]
  rfl

/-- C3 witness. -/
theorem c3_witness : abcFromSorted [] = ([] : List AbcRow) :=
  c3_empty_yields_empty (abcFromSorted []) ⟨[], ⟨by decide, by simp [RevDesc]⟩, rfl⟩

/-- **C4 counterexample**.  The claim says a zero net revenue always yields
the NaN sentinel.  For gross profit 5 and net revenue 0 the float division
`5 / 0` yields `+inf`, not NaN (and not 0): the code's margin
(line 55-57) is `+inf` here. -/
theorem c4_counterexample :
    (normalizeRecord ⟨1, 1, 1, some ⟨2024, 1, 10⟩, 1, 0, 5⟩).margem_pct = .posInf ∧
    EFloat.posInf ≠ EFloat.nan ∧ EFloat.posInf ≠ .fin 0 := by
  refine ⟨by decide, by decide, by decide⟩

/-- **C4 amended**.  When net revenue is exactly zero the margin is NaN only
when gross profit is also zero; it is `+inf` for positive and `-inf` for
negative gross profit.  In every case there is no divide-by-zero fault and
the value is not coerced to zero; `normalize` propagates it to the output
row unchanged. -/
theorem c4_zero_revenue_margin (r : SaleRecord) (h : r.receita_liquida = 0) :
    (normalizeRecord r).margem_pct =
      (if r.lucro_bruto = 0 then EFloat.nan
       else if 0 < r.lucro_bruto then EFloat.posInf else EFloat.negInf) ∧
    (normalizeRecord r).margem_pct ≠ .fin 0 := by
  have hm : (normalizeRecord r).margem_pct
      = (if r.lucro_bruto = 0 then EFloat.nan
         else if 0 < r.lucro_bruto then EFloat.posInf else EFloat.negInf) := by
    by_cases h0 : r.lucro_bruto = 0
    · norm_num [normalizeRecord, h, h0, ediv, emul, eround2]
    · by_cases hpos : 0 < r.lucro_bruto
      · norm_num [normalizeRecord, h, h0, hpos, ediv, emul, eround2]
      · norm_num [normalizeRecord, h, h0, hpos, ediv, emul, eround2]
  refine ⟨hm, ?_⟩
  rw [hm]
  by_cases h0 : r.lucro_bruto = 0
  · simp [h0]
  · by_cases hpos : 0 < r.lucro_bruto <;> simp [h0, hpos]

/-- C4 witness: gross profit 5 on zero net revenue. -/
theorem c4_witness :
    (normalizeRecord ⟨1, 1, 1, some ⟨2024, 1, 10⟩, 1, 0, 5⟩).margem_pct =
      (if (5 : ℚ) = 0 then EFloat.nan
       else if 0 < (5 : ℚ) then EFloat.posInf else EFloat.negInf) ∧
    (normalizeRecord ⟨1, 1, 1, some ⟨2024, 1, 10⟩, 1, 0, 5⟩).margem_pct ≠ .fin 0 :=
  c4_zero_revenue_margin _ rfl

/-- **C5 counterexample**.  The claim says a missing sale date aborts the
transformation with `MalformedRecordError`.  No such error class exists in
the repository.  Instead, `.dt.year`/`.dt.month` on `NaT` give NaN and
`groupby(['Ano','Mes'])` drops the null key (pandas `dropna=True` default):
a record with 100 revenue and no date silently vanishes from the monthly
rollup — no error, no abort. -/
theorem c5_counterexample :
    vendas_mensais (normalize [⟨1, 1, 1, none, 1, 100, 20⟩]) = [] ∧
    (([⟨1, 1, 1, none, 1, 100, 20⟩] : List SaleRecord).map (·.receita_liquida)).sum
      ≠ 0 := by
  refine ⟨rfl, by norm_num⟩

/-- **C5 amended**.  A Sale Record whose sale date is missing/unparseable
does not make the transformation fail: the normaliser yields null calendar
fields and the monthly aggregation silently ignores the record — the
monthly rollup is unchanged when all null-key records are removed. -/
theorem c5_missing_dates_silently_dropped (recs : List NormRecord) :
    vendas_mensais (recs.filter (fun r => (mesKey r).isSome))
      = vendas_mensais recs := by
  unfold vendas_mensais
  have hkeys : groupKeys leYM mesKey (recs.filter fun r => (mesKey r).isSome)
      = groupKeys leYM mesKey recs := by
    unfold groupKeys
    rw [filterMap_mesKey_filter]
  rw [hkeys]
  apply List.map_congr_left
  intro k _
  rw [groupOf_mesKey_filter]

/-- **C6** (confirmed).  `segment_customer` evaluates exactly the spec's
prioritized rule chain over the (R, F) characters of the score string,
first match wins, and always returns one of the five fixed labels
(the code's Portuguese strings for Champions / Loyal / Potential /
At Risk / Lost). -/
theorem c6_segment_rule_chain (r f m : Char) :
    segment_customer [r, f, m] = firstMatch specSegmentRules "Perdidos" (r, f) ∧
    segment_customer [r, f, m]
      ∈ (["Champions", "Leais", "Potencial", "Em Risco", "Perdidos"] : List String) := by
  constructor
  · simp only [segment_customer, firstMatch, specSegmentRules, List.getD_cons_zero,
      List.getD_cons_succ, Bool.and_eq_true, decide_eq_true_eq]
  · simp only [segment_customer, List.getD_cons_zero, List.getD_cons_succ]
    split_ifs <;> simp

/-- **C7 counterexample**.  The claim says any two runs on the same input
produce identical outputs because the as-of instant is an explicit
parameter.  In the code the as-of instant is `pd.Timestamp.now()` (line
73), read from the global clock at invocation time: the same one-record
input produces different recency values when invoked at day 200 versus day
300. -/
theorem c7_counterexample :
    rfmBase [⟨1, 1, 1, some ⟨2024, 1, 100⟩, 1, 50, 10⟩] 200
      ≠ rfmBase [⟨1, 1, 1, some ⟨2024, 1, 100⟩, 1, 50, 10⟩] 300 := by
  decide

/-- **C7 amended**.  The RFM base computation is a pure function of the
input *and* the invocation instant: shifting the clock by `d` days shifts
every recency by exactly `d` and changes nothing else.  Runs at the same
instant coincide; runs at different instants differ in recency. -/
theorem c7_clock_dependence (recs : List SaleRecord) (h d : ℤ) :
    rfmBase recs (h + d) = (rfmBase recs h).map
      (fun row => { row with recencia := row.recencia.map (d + ·) }) := by
  unfold rfmBase
  rw [List.map_map]
  apply List.map_congr_left
  intro k _
  simp only [Function.comp]
  congr 1
  exact option_shift _ h d

/-- **C8** (confirmed).  Conservation: for every input all of whose records
carry a (parseable) sale date, the total revenue of the monthly rollup
equals the total net revenue of the input — exactly, in the exact-rational
model. -/
theorem c8_conservation (recs : List SaleRecord)
    (hd : ∀ r ∈ recs, r.data_venda.isSome) :
    ((vendas_mensais (normalize recs)).map (·.receita_liquida)).sum
      = (recs.map (·.receita_liquida)).sum :=
  total_vendas_mensais recs hd

/-- C8 witness: two dated sales in different months. -/
theorem c8_witness :
    ((vendas_mensais (normalize [⟨1, 1, 1, some ⟨2024, 1, 10⟩, 2, 100, 30⟩,
        ⟨2, 2, 1, some ⟨2024, 2, 40⟩, 1, 50, 10⟩])).map (·.receita_liquida)).sum
      = (([⟨1, 1, 1, some ⟨2024, 1, 10⟩, 2, 100, 30⟩,
        ⟨2, 2, 1, some ⟨2024, 2, 40⟩, 1, 50, 10⟩] : List SaleRecord).map
          (·.receita_liquida)).sum :=
  c8_conservation _ (by decide)

/-- **C9** (confirmed).  Cumulative closure: whenever total revenue is
strictly positive, the last-ranked ABC row's cumulative percentage is
exactly `fin 100` (hence within any tolerance of 100.0). -/
theorem c9_cumulative_closure (recs : List SaleRecord) (out : List AbcRow)
    (h : AbcOutput recs out) (hpos : 0 < (recs.map (·.receita_liquida)).sum) :
    (out.getLast?).map (·.pct_acumulado) = some (.fin 100) := by
  obtain ⟨sorted, ⟨hperm, -⟩, rfl⟩ := h
  have htot : (sorted.map (·.receita_liquida)).sum
      = (recs.map (·.receita_liquida)).sum := by
    rw [← total_vendas_produto]
    exact List.Perm.sum_eq (hperm.map (·.receita_liquida))
  have hne0 : (sorted.map (·.receita_liquida)).sum ≠ 0 := by
    rw [htot]; exact ne_of_gt hpos
  have hsne : sorted ≠ [] := by
    rintro rfl
    simp at hne0
  have hlast := abcRows_getLast_pct ((sorted.map (·.receita_liquida)).sum) sorted 0 hsne
  rw [zero_add] at hlast
  unfold abcFromSorted
  rw [hlast, pctAcumulado_self _ hne0]

/-- C9 witness: a single product with revenue 50. -/
theorem c9_witness :
    ((abcFromSorted [⟨1, 50, 2⟩]).getLast?).map (·.pct_acumulado)
      = some (.fin 100) := by
  have hvp : vendas_produto [⟨7, 3, 1, some ⟨2024, 1, 10⟩, 2, 50, 20⟩]
      = [⟨1, 50, 2⟩] := by
    norm_num [vendas_produto, groupKeys, groupOf, List.insertionSort, List.orderedInsert]
  exact c9_cumulative_closure [⟨7, 3, 1, some ⟨2024, 1, 10⟩, 2, 50, 20⟩] _
    ⟨[⟨1, 50, 2⟩], ⟨by rw [hvp], by simp [RevDesc]⟩, rfl⟩ (by norm_num)

/-- **C10** (confirmed).  `Classe_ABC` is decided from the *rounded*
cumulative percentage (`Pct_Acumulado = (...).round(2)` at line 119, then
`classificar_abc` at line 129): every exact cumulative share strictly above
a threshold but within 0.005 of it rounds down to the threshold
(round-half-even sends `(8000, 8000.5]` to 8000) and is classed as if at
the threshold — class A at the 80 boundary, class B at the 95 boundary. -/
theorem c10_classification_after_rounding (q : ℚ) :
    (80 < q → q ≤ 80 + 1 / 200 → classificar_abc (eround2 (.fin q)) = "A") ∧
    (95 < q → q ≤ 95 + 1 / 200 → classificar_abc (eround2 (.fin q)) = "B") := by
  constructor
  · intro h1 h2
    have hr : roundHalfEven (q * 100) = 8000 :=
      roundHalfEven_of_Ioc 8000 _ (by norm_num) (by push_cast; linarith)
        (by push_cast; linarith)
    have h80 : round2 q = 80 := by rw [round2, hr]; norm_num
    norm_num [eround2, h80, classificar_abc, ele]
  · intro h1 h2
    have hr : roundHalfEven (q * 100) = 9500 :=
      roundHalfEven_of_Ioc 9500 _ (by norm_num) (by push_cast; linarith)
        (by push_cast; linarith)
    have h95 : round2 q = 95 := by rw [round2, hr]; norm_num
    norm_num [eround2, h95, classificar_abc, ele]

/-- C10 witness: exact shares 80.004 and 95.004 round to the thresholds and
take classes A and B. -/
theorem c10_witness :
    classificar_abc (eround2 (.fin (80 + 1 / 250))) = "A" ∧
    classificar_abc (eround2 (.fin (95 + 1 / 250))) = "B" :=
  ⟨(c10_classification_after_rounding (80 + 1 / 250)).1 (by norm_num) (by norm_num),
   (c10_classification_after_rounding (95 + 1 / 250)).2 (by norm_num) (by norm_num)⟩

end RetailBI
